import Mathlib

/-!
# A shallow embedding of the eventfile core (lib.rs, iter.rs, mmap.rs, formats.rs)

This file embeds the event-log engine of the repository in Lean 4 and settles
the frozen claims about it.

Modelling conventions, fixed once for the whole file:

* Machine integers become `Nat`.  Wrap-around is written explicitly
  (`% 2 ^ 32`, `sub64`) exactly where the source performs `u32`/`u64`
  arithmetic whose overflow is observable (the jump-table slots of `append`,
  the index subtractions of `RangeIter::next`).  File offsets and sizes are
  kept as plain `Nat`: their `u64`/`usize` carriers cannot overflow on any
  physically possible file, and the source never relies on their wrapping.
* The staging area is modelled at byte level: `buf` holds the staging bytes
  from staging offset `StagingHeader::LEN = 32` onwards (jump-table region
  followed by the event-byte region), because `append` and `compress`
  manipulate it through raw byte reads and writes and the regions can alias
  for small `block_event_limit`.  Reads beyond the written part of the mmap
  yield `0`, matching the zero-fill of `clear_staging` and `set_len`.
* The stream region is modelled as an association list from block offset to
  the block's decoded contents.  `compress` writes a block as three
  consecutive `stream_append`s (BlockHeader at the block offset, then
  LeafHeader/BranchHeader, then payload bytes); the model stores the bundle
  under the BlockHeader's offset and advances `end_offset` by exactly the
  amounts the source adds (`SIZE` per record, bytes rounded up to 8).
* The zstd codec is external to the repository (`COMPRESS`/`DECOMPRESS` in
  the spec); it is modelled as the identity on byte lists, using only that
  `decode_all` inverts the streaming encoder.  The real encoder's output
  length is not modelled, so properties that hinge on it — in particular
  whether the `u32` length check in `compress` can fire — are outside the
  scope of this development and no theorem below decides one.
* `mmap.rs` of the repository does not contain `stream_after`,
  `stream_bytes_after` and `stream_offset`, although `iter.rs` calls them.
  Modelled from the spec: `stream_after` returns the record immediately
  following the given one (here: the leaf/branch header and index entries
  bundled with the block), `stream_bytes_after` the following raw bytes,
  `stream_offset` the record's stream offset; out-of-stream access errors.
  Likewise `JumpEntry::LEN = 4` (spec: `pos:u32`, no magic).
* Loops of the source that walk the reverse-linked block chain are given an
  explicit fuel argument (they recurse on data read from the file); the
  entry points instantiate the fuel with a bound that provably suffices on
  every state the public operations produce.
-/

set_option maxRecDepth 20000

/-- Two to the sixty-fourth, the modulus of `u64` arithmetic. -/
def POW64 : Nat := 2 ^ 64

/-- The `u64::MAX` sentinel (`-1` in the source comments): end of a chain. -/
def U64MAX : Nat := 2 ^ 64 - 1

/-- Wrapping `u64` subtraction, as performed by `a - b` on `u64` in release
builds; for `a ≥ b` it is plain subtraction. -/
def sub64 (a b : Nat) : Nat := (a + POW64 - b) % POW64

/-- Big-endian byte encoding of a `u32` value, as produced by `to_be`. -/
def be32 (n : Nat) : List Nat :=
  [n / 2 ^ 24 % 256, n / 2 ^ 16 % 256, n / 2 ^ 8 % 256, n % 256]

/-- Big-endian `u32` read of four bytes at position `i`, as `u32::from_be`
on a raw pointer; bytes beyond the zero-filled mapping read as `0`. -/
def readBE32 (l : List Nat) (i : Nat) : Nat :=
  (((l.getD i 0) * 256 + l.getD (i + 1) 0) * 256 + l.getD (i + 2) 0) * 256 + l.getD (i + 3) 0

/-- Byte slice `[a, b)` of a zero-extended buffer (mmap reads of a region:
bytes past the written list are the zero fill). -/
def sliceZ (l : List Nat) (a b : Nat) : List Nat :=
  (List.range (b - a)).map (fun i => l.getD (a + i) 0)

/-- Write the byte list `w` into buffer `l` at position `p`; the buffer is
zero-extended as the mmap is by `set_len`. -/
def writeBytes (l : List Nat) (p : Nat) (w : List Nat) : List Nat :=
  (List.range (max l.length (p + w.length))).map
    (fun i => if p ≤ i ∧ i < p + w.length then w.getD (i - p) 0 else l.getD i 0)

/-- Round a byte count up to a multiple of eight, as the source computes
`(bytes.len() + 7) & !7` on `u64` (`!7 = 2^64 - 8`). -/
def round8 (n : Nat) : Nat := (n + 7) &&& (2 ^ 64 - 8)

/-- The error type of `error.rs`, restricted to the payloads the model can
produce.  The byte-level `stream_at` distinguishes `DataNotPresent` (outside
`[start_offset, end_offset)`) from `DataCorruption` (bad magic); the
record-level stream model collapses a failed block lookup into one
`dataNotPresent` value. -/
inductive Err where
  | wrongStreamVersion (v : Nat)
  | wrongUserVersion (expected found : Nat)
  | numericOverflow (what : String)
  | dataCorruption (message : String) (found expected : Nat)
  | dataNotPresent (message : String) (offset boundary : Nat)
deriving DecidableEq, Repr

/-- A finalized block of the stream region: a `BlockHeader` together with
the records that follow it.  A `leaf` is `BlockHeader{prev_block, level=0,
length}` + `LeafHeader{start_idx, count}` + the compressed payload bytes; a
`branch` is `BlockHeader{prev_block, level, length}` +
`BranchHeader{prev_offset, end_idx}` + the `IndexEntry` array (pairs
`(offset, start_idx)`). -/
inductive Block where
  | leaf (prev_block length start_idx count : Nat) (payload : List Nat)
  | branch (prev_block level length prev_offset end_idx : Nat)
      (entries : List (Nat × Nat))
deriving DecidableEq, Repr

/-- The `BlockHeader.level` field: leaves are written with level `0`. -/
def Block.level : Block → Nat
  | .leaf _ _ _ _ _ => 0
  | .branch _ lvl _ _ _ _ => lvl

/-- The offset the search iterator continues at after yielding this block:
`prev_block` for a leaf, `BranchHeader.prev_offset` for a branch
(`SearchIter::next`, iter.rs lines 47-55). -/
def Block.nextLink : Block → Nat
  | .leaf pb _ _ _ _ => pb
  | .branch _ _ _ poff _ _ => poff

/-- The stream region: block offset ↦ block contents, newest first. -/
def lookupBlock (off : Nat) : List (Nat × Block) → Option Block
  | [] => none
  | (o, b) :: rest => if o = off then some b else lookupBlock off rest

/-- Reading a typed record at a stream offset (`MmapFile::stream_at` and the
spec-modelled `stream_after` adjacency): the record-level model reports a
missing block as `DataNotPresent` against the `end_offset` boundary. -/
def streamAt (stream : List (Nat × Block)) (endOffset off : Nat) : Except Err Block :=
  match lookupBlock off stream with
  | some b => .ok b
  | none => .error (.dataNotPresent "stream_at" off endOffset)

/-- The in-memory state of an `EventFile` (lib.rs) together with the parts
of its `MmapFile` the engine observes: the stream association list,
`end_offset`, the staging region length `stagingLen` (bytes from
`staging_start` to the file end), the `StagingHeader` fields `last_block`,
`start_idx`, `count`, `capacity`, and the staging bytes `buf` from staging
offset 32 (= `StagingHeader::LEN`) onward. -/
structure EventFile where
  compression_threshold : Nat
  block_event_limit : Nat
  stream : List (Nat × Block)
  end_offset : Nat
  stagingLen : Nat
  last_block : Nat
  start_idx : Nat
  count : Nat
  capacity : Nat
  buf : List Nat
deriving DecidableEq, Repr

/-- `StagingHeader::LEN` (24-byte record + 8-byte magic). -/
def stagingHeaderLEN : Nat := 32

/-- `BlockHeader::SIZE = LeafHeader::SIZE = BranchHeader::SIZE = 24`
(16-byte records + 8-byte magic). -/
def blockHeaderSIZE : Nat := 24

/-- `IndexEntry::LEN = 16` (two `u64`s, empty magic). -/
def indexEntryLEN : Nat := 16

/-- `EventFile::staging_idx`: byte offset of jump-table slot `idx` within
the staging area. -/
def stagingIdx (idx : Nat) : Nat := stagingHeaderLEN + idx * 4

/-- `EventFile::prep_staging`: clear the staging area, grow it to at least
header + jump table + compression threshold, write a fresh
`StagingHeader{last_block, start_idx, count=0, capacity=block_event_limit}`,
flush. -/
def EventFile.prep_staging (ef : EventFile) (last_block start_idx : Nat) : EventFile :=
  let size := stagingIdx ef.block_event_limit + ef.compression_threshold
  { ef with
    buf := []
    stagingLen := max ef.stagingLen size
    last_block := last_block
    start_idx := start_idx
    count := 0
    capacity := ef.block_event_limit }

/-- `EventFile::new` for a fresh file: `MmapFile::new` leaves a 4096-byte
file (staging length 0), so the constructor calls
`prep_staging(u64::MAX, 0)`. -/
def EventFile.new (compression_threshold block_event_limit : Nat) : EventFile :=
  EventFile.prep_staging
    { compression_threshold := compression_threshold
      block_event_limit := block_event_limit
      stream := []
      end_offset := 0
      stagingLen := 0
      last_block := 0
      start_idx := 0
      count := 0
      capacity := 0
      buf := [] }
    U64MAX 0

/-- `LeafHeader::LEN` (and `BranchHeader::LEN`), 24 bytes including magic. -/
def leafHeaderLEN : Nat := 24

/-- One step of the branch-cascade collection loop of `EventFile::compress`
(lib.rs lines 117-137): walk the search iterator from `offset`, stop when a
block of level ≥ `level` appears (its offset becomes `prev_idx`) or the
chain ends (`prev_idx = u64::MAX`); for every lower block push
`IndexEntry(offset, start_idx)` where `start_idx` is `leaf.start_idx` for a
leaf and the first `IndexEntry`'s `start_idx` for a branch, and remember as
`end_idx` the covered upper bound of the first collected block.  The fuel
argument bounds the chain walk; exhaustion reports a model-internal error
(the source would keep following the chain). -/
def cascadeCollect (stream : List (Nat × Block)) (endOffset : Nat) :
    Nat → Nat → Nat → Nat → List (Nat × Nat) → Except Err (List (Nat × Nat) × Nat × Nat)
  | 0, _, _, _, _ => .error (.dataCorruption "model: chain walk fuel exhausted" 0 0)
  | f + 1, offset, level, endAcc, acc =>
    if offset = U64MAX then .ok (acc, U64MAX, endAcc)
    else
      match streamAt stream endOffset offset with
      | .error e => .error e
      | .ok b =>
        if level ≤ b.level then .ok (acc, offset, endAcc)
        else
          match b with
          | .leaf _ _ si cnt _ =>
            let endAcc' := if endAcc = 0 then si + cnt else endAcc
            cascadeCollect stream endOffset f (Block.nextLink b) level endAcc'
              (acc ++ [(offset, si)])
          | .branch _ _ _ _ eidx entries =>
            match entries.head? with
            | none => .error (.dataNotPresent "stream_at" (offset + 48) endOffset)
            | some e0 =>
              let endAcc' := if endAcc = 0 then eidx else endAcc
              cascadeCollect stream endOffset f (Block.nextLink b) level endAcc'
                (acc ++ [(offset, e0.2)])

/-- The branch-cascade loop of `EventFile::compress` (lib.rs lines 112-153):
collect the trailing blocks below `level`; if fewer than `FANOUT = 16` were
found stop, otherwise reverse them into ascending order and append
`BlockHeader{prev_block=current, level, length}` +
`BranchHeader{prev_offset, end_idx}` + the index array, then continue one
level higher.  Returns the final state and the final `current` offset. -/
def cascade : Nat → EventFile → Nat → Nat → Except Err (EventFile × Nat)
  | 0, _, _, _ => .error (.dataCorruption "model: cascade fuel exhausted" 0 0)
  | f + 1, ef, current, level =>
    match cascadeCollect ef.stream ef.end_offset (ef.stream.length + 2) current level 0 [] with
    | .error e => .error e
    | .ok (acc, prev_idx, end_idx) =>
      if acc.length < 16 then .ok (ef, current)
      else
        let length := leafHeaderLEN + indexEntryLEN * acc.length
        if 2 ^ 32 - 1 < length then .error (.numericOverflow "index > 4GiB")
        else
          let next_current := ef.end_offset
          let ib := indexEntryLEN * acc.length
          let s1 := max ef.stagingLen 24 - 24
          let s2 := max s1 24 - 24
          let s3 := max s2 ib - round8 ib
          let ef' := { ef with
            stream := (next_current,
              Block.branch current level length prev_idx end_idx acc.reverse) :: ef.stream
            end_offset := next_current + 24 + 24 + round8 ib
            stagingLen := s3 }
          cascade f ef' next_current (level + 1)

/-- `EventFile::compress` (lib.rs lines 84-158): snapshot the staging
header; build the leaf payload from the jump-table bytes for slots
`[0, count]` followed by the staged event bytes (the zstd codec is external
and modelled as the identity, so `compressed.length` here stands for the
identity codec's output length, not the real encoder's); fail with
`NumericOverflow` if the leaf would
not fit a `u32` length; append `BlockHeader` + `LeafHeader` + payload; run
the branch cascade; re-initialize staging at `start_idx + count` with
`last_block` pointing at the newest block written. -/
def EventFile.compress (ef : EventFile) : Except Err EventFile :=
  if ef.stagingLen < stagingHeaderLEN then
    .error (.dataCorruption "index beyond staging end" 32 ef.stagingLen)
  else
    let c := ef.count
    if ef.stagingLen < stagingIdx c + 4 then
      .error (.dataCorruption "byte index beyond staging end" (stagingIdx c + 4) ef.stagingLen)
    else
      let jt := sliceZ ef.buf 0 (4 * c + 4)
      let jcount := readBE32 ef.buf (4 * c)
      if ef.stagingLen < stagingIdx ef.block_event_limit + jcount then
        .error (.dataCorruption "byte index beyond staging end"
          (stagingIdx ef.block_event_limit + jcount) ef.stagingLen)
      else
        let ev := sliceZ ef.buf (4 * ef.block_event_limit) (4 * ef.block_event_limit + jcount)
        let compressed := jt ++ ev
        let length := compressed.length + leafHeaderLEN
        if 2 ^ 32 - 1 < length then .error (.numericOverflow "compression result > 4GiB")
        else
          let current := ef.end_offset
          let s1 := max ef.stagingLen 24 - 24
          let s2 := max s1 24 - 24
          let s3 := max s2 compressed.length - round8 compressed.length
          let ef1 := { ef with
            stream := (current, Block.leaf ef.last_block length ef.start_idx c compressed) :: ef.stream
            end_offset := current + 24 + 24 + round8 compressed.length
            stagingLen := s3 }
          match cascade (ef1.stream.length + 2) ef1 current 1 with
          | .error e => .error e
          | .ok (ef2, current2) =>
            .ok (EventFile.prep_staging ef2 current2 (ef.start_idx + c))

/-- `EventFile::append` (lib.rs lines 67-82): read the staging header, read
jump slot `count`, grow staging, copy the event bytes in at
`event_start + offset`, store `offset + len` (a wrapping `u32` sum) into
slot `count + 1`, bump `count`, and compress when `count + 2 ≥ capacity` or
the new slot value reaches the compression threshold.  The bounds checks
are the ones `staging_at`/`staging_mut_no_magic` perform against the
staging length (their alignment checks always pass: slots sit at
`32 + 4·i` and `staging_start` is 8-aligned). -/
def EventFile.append (ef : EventFile) (event : List Nat) : Except Err EventFile :=
  if ef.stagingLen < stagingHeaderLEN then
    .error (.dataCorruption "index beyond staging end" 32 ef.stagingLen)
  else
    let c := ef.count
    let idx := stagingIdx c
    if ef.stagingLen < idx + 4 then
      .error (.dataCorruption "writing beyond end of file" (idx + 4) ef.stagingLen)
    else
      let offset := readBE32 ef.buf (4 * c)
      let start := stagingIdx ef.block_event_limit + offset
      let sLen := max ef.stagingLen (start + event.length)
      let buf1 := writeBytes ef.buf (4 * ef.block_event_limit + offset) event
      let new_len := (offset + event.length) % 2 ^ 32
      if sLen < idx + 8 then
        .error (.dataCorruption "writing beyond end of file" (idx + 8) sLen)
      else
        let buf2 := writeBytes buf1 (4 * c + 4) (be32 new_len)
        let ef1 := { ef with buf := buf2, stagingLen := sLen, count := c + 1 }
        if ef.capacity ≤ c + 2 ∨ ef.compression_threshold ≤ new_len then ef1.compress
        else .ok ef1

/-- `SearchIter::next` (iter.rs lines 41-57): `None` once the offset is
`u64::MAX`; otherwise read the `BlockHeader`, yield `(offset, header)`, and
advance to `prev_block` for a leaf or to the `BranchHeader.prev_offset` for
a branch; a read failure yields the error once and parks the iterator at
`u64::MAX`.  (The source's separate `BranchHeader` read cannot fail in the
record-level model, where it is bundled with the block.) -/
def SearchIter.next (stream : List (Nat × Block)) (endOffset offset : Nat) :
    Option (Except Err (Nat × Block)) × Nat :=
  if offset = U64MAX then (none, offset)
  else
    match streamAt stream endOffset offset with
    | .error e => (some (.error e), U64MAX)
    | .ok b => (some (.ok (offset, b)), Block.nextLink b)

/-- `RangeIter` state (iter.rs lines 60-72): the `file`, `cache`, `id` and
`block_event_limit` fields live on the `EventFile` the functions below take
as a parameter; `todo` is newest-first and popped from the back. -/
structure RangeIter where
  done : Bool
  start_idx : Nat
  end_idx : Nat
  todo : List Nat
deriving DecidableEq, Repr

/-- The todo-collection walk of `RangeIter::new` (iter.rs lines 107-125):
follow the search iterator; for each block compute its covered inclusive
index interval (`[start, start + count - 1]` for a leaf, `[first entry's
start_idx, end_idx - 1]` for a branch, `u64` subtractions wrapping) and keep
the offsets of blocks overlapping the request. -/
def collectTodo (stream : List (Nat × Block)) (endOffset : Nat) :
    Nat → Nat → Nat → Nat → List Nat → Except Err (List Nat)
  | 0, _, _, _, _ => .error (.dataCorruption "model: chain walk fuel exhausted" 0 0)
  | f + 1, offset, s, e, acc =>
    match SearchIter.next stream endOffset offset with
    | (none, _) => .ok acc
    | (some (.error err), _) => .error err
    | (some (.ok (off, b)), nxt) =>
      match b with
      | .leaf _ _ si cnt _ =>
        if si ≤ e ∧ s ≤ sub64 (si + cnt) 1 then
          collectTodo stream endOffset f nxt s e (acc ++ [off])
        else collectTodo stream endOffset f nxt s e acc
      | .branch _ _ _ _ eidx entries =>
        match entries.head? with
        | none => .error (.dataNotPresent "stream_at" (off + 48) endOffset)
        | some e0 =>
          if e0.2 ≤ e ∧ s ≤ sub64 eidx 1 then
            collectTodo stream endOffset f nxt s e (acc ++ [off])
          else collectTodo stream endOffset f nxt s e acc

/-- `RangeIter::new` (iter.rs lines 74-137) after bound normalization: an
empty request (`start > end`) yields a finished iterator; otherwise the todo
stack is collected from `staging_header.last_block`.  The claims use the
two normalizations the source produces: `iter(..)` gives `(0, u64::MAX)`
and `iter(a..=b)` gives `(a, b)`. -/
def RangeIter.new (ef : EventFile) (start_idx end_idx : Nat) : Except Err RangeIter :=
  if end_idx < start_idx then
    .ok { done := true, start_idx := start_idx, end_idx := end_idx, todo := [] }
  else
    match collectTodo ef.stream ef.end_offset (ef.stream.length + 2) ef.last_block
        start_idx end_idx [] with
    | .error e => .error e
    | .ok todo =>
      .ok { done := false, start_idx := start_idx, end_idx := end_idx, todo := todo }

/-- `EventFile::iter` (lib.rs lines 164-166): read the staging header and
build the range iterator from its `last_block`. -/
def EventFile.iter (ef : EventFile) (start_idx end_idx : Nat) : Except Err RangeIter :=
  if ef.stagingLen < stagingHeaderLEN then
    .error (.dataCorruption "index beyond staging end" 32 ef.stagingLen)
  else RangeIter.new ef start_idx end_idx

/-- `LeafSlice` (iter.rs lines 224-249): shared decompressed bytes plus a
`u32` position range and the jump-table size `base`. -/
structure LeafSlice where
  bytes : List Nat
  start_idx : Nat
  end_idx : Nat
  base : Nat
deriving DecidableEq, Repr

/-- `LeafSlice::new` narrows the `u64` positions to `u32` with
`try_into().unwrap()`; `none` models the panic on overflow. -/
def LeafSlice.new (bytes : List Nat) (start_idx end_idx base : Nat) : Option LeafSlice :=
  if start_idx < 2 ^ 32 ∧ end_idx < 2 ^ 32 then
    some { bytes := bytes, start_idx := start_idx, end_idx := end_idx, base := base }
  else none

/-- `RangeIter::decompress` (iter.rs lines 139-156) on a cache miss: take
`BlockHeader.length - LeafHeader::LEN` bytes after the leaf header and
decode them (the codec is the identity in the model, so this is a
zero-extended slice of the stored payload). -/
def decompressLeaf (length : Nat) (payload : List Nat) : List Nat :=
  sliceZ payload 0 (length - leafHeaderLEN)

/-- The scan over a branch's `IndexEntry` array (iter.rs lines 210-217):
starting from the first entry, advance while the next entry's `start_idx`
is still ≤ the requested index, visiting at most `count - 1` successors; a
successor the block length promises but the stream does not contain is a
read error. -/
def scanEntries (entries : List (Nat × Nat)) (start endOffset errOff : Nat) :
    Nat → Nat → (Nat × Nat) → Except Err (Nat × Nat)
  | 0, _, e => .ok e
  | r + 1, i, e =>
    match entries.get? i with
    | none => .error (.dataNotPresent "stream_at" (errOff + 48 + 16 * i) endOffset)
    | some n => if start < n.2 then .ok e else scanEntries entries start endOffset errOff r (i + 1) n

deriving instance DecidableEq for Except

/-- The outcome of one `RangeIter::next` call: an item (`Some(Ok/Err)`), the
iterator's `None` (`stop`), a panic of the source (`panicked`), or model
fuel exhaustion on the inner descent loop (`fuelOut`, the source would keep
looping). -/
inductive NextRes where
  | item (x : Except Err LeafSlice)
  | stop
  | panicked
  | fuelOut
deriving DecidableEq, Repr

/-- The descent loop of `RangeIter::next` (iter.rs lines 185-220): read the
block at `offset`; a leaf is popped if it is the todo top, decompressed, and
yielded as a `LeafSlice` clipped to `[start_idx - leaf.start_idx,
min(end_idx - leaf.start_idx, count - 1)]` (wrapping `u64` subtractions),
advancing `start_idx` to `leaf.start_idx + count`; an exhausted branch pops
the todo top and continues (ending the iterator, *without* the staging
check, when the stack empties); otherwise the branch's entry whose span
contains `start_idx` is selected and the loop descends. -/
def RangeIter.loop (ef : EventFile) : Nat → RangeIter → Nat → NextRes × RangeIter
  | 0, st, _ => (.fuelOut, st)
  | f + 1, st, offset =>
    match streamAt ef.stream ef.end_offset offset with
    | .error e => (.item (.error e), { st with done := true })
    | .ok (.leaf _ length lo cnt payload) =>
      let st1 := if st.todo.getLast? = some offset then { st with todo := st.todo.dropLast } else st
      let bytes := decompressLeaf length payload
      let s := sub64 st1.start_idx lo
      let e := min (sub64 st1.end_idx lo) (sub64 cnt 1)
      let base := (cnt + 1) % 2 ^ 32 * 4
      match LeafSlice.new bytes s e base with
      | none => (.panicked, st1)
      | some ls => (.item (.ok ls), { st1 with start_idx := lo + cnt })
    | .ok (.branch _ _ length _ eidx entries) =>
      if eidx ≤ st.start_idx ∨ st.end_idx < st.start_idx then
        let todo' := st.todo.dropLast
        match todo'.getLast? with
        | none => (.stop, { st with todo := todo' })
        | some off' => RangeIter.loop ef f { st with todo := todo' } off'
      else
        let count := (length - leafHeaderLEN) / indexEntryLEN
        match entries.head? with
        | none =>
          (.item (.error (.dataNotPresent "stream_at" (offset + 48) ef.end_offset)),
            { st with done := true })
        | some e0 =>
          match scanEntries entries st.start_idx ef.end_offset offset (count - 1) 1 e0 with
          | .error e => (.item (.error e), { st with done := true })
          | .ok chosen => RangeIter.loop ef f st chosen.1

/-- `RangeIter::next` (iter.rs lines 162-221): finished iterators yield
`None`; an empty todo stack delivers at most one `LeafSlice` over the raw
staging bytes (base `block_event_limit * JumpEntry::LEN`) and finishes;
otherwise the descent loop runs from the back of the todo stack. -/
def RangeIter.next (ef : EventFile) (st : RangeIter) (fuel : Nat) : NextRes × RangeIter :=
  if st.done then (.stop, st)
  else
    match st.todo.getLast? with
    | none =>
      let st' := { st with done := true }
      if st'.end_idx < st'.start_idx then (.stop, st')
      else if ef.stagingLen < stagingHeaderLEN then
        (.item (.error (.dataCorruption "index beyond staging end" 32 ef.stagingLen)), st')
      else
        let head_start := ef.start_idx
        let head_count := ef.count
        let start := sub64 st'.start_idx head_start
        if head_count ≤ start then (.stop, st')
        else
          let e := min (sub64 st'.end_idx head_start) (sub64 head_count 1)
          let bytes := sliceZ ef.buf 0 (ef.stagingLen - stagingHeaderLEN)
          let base := ef.block_event_limit * 4
          match LeafSlice.new bytes start e base with
          | none => (.panicked, st')
          | some ls => (.item (.ok ls), st')
    | some offset => RangeIter.loop ef fuel st offset

/-- `MmapFileHeader` (formats.rs): `stream_version`, `user_version`,
`start_offset`, `end_offset`, magic `Events01`. -/
structure MmapFileHeaderM where
  stream_version : Nat
  user_version : Nat
  start_offset : Nat
  end_offset : Nat
deriving DecidableEq, Repr

/-- The observable result of `MmapFile::new`: file length, header contents,
the loaded offsets, and whether the constructor flushed. -/
structure MmapFileM where
  fileLen : Nat
  header : MmapFileHeaderM
  start_offset : Nat
  end_offset : Nat
  flushed : Bool
deriving DecidableEq, Repr

/-- `MmapFile::new` (mmap.rs lines 27-72), applied to a file of length
`len` whose first 4096 bytes decode (magic assumed intact) to `stored`:
a file shorter than 4096 bytes is *rejected* with `DataCorruption` unless
it is empty; an empty file is extended to 4096 bytes and given a fresh
`MmapFileHeader(1, user_version, 0, 0)`, flushed; otherwise the header is
validated and the offsets loaded. -/
def MmapFile.new (len : Nat) (stored : MmapFileHeaderM) (user_version : Nat) :
    Except Err MmapFileM :=
  if len < 4096 then
    if 0 < len then .error (.dataCorruption "non-empty file is too small" len 4096)
    else
      .ok { fileLen := 4096, header := ⟨1, user_version, 0, 0⟩, start_offset := 0,
            end_offset := 0, flushed := true }
  else
    if stored.stream_version ≠ 1 then .error (.wrongStreamVersion stored.stream_version)
    else if stored.user_version ≠ user_version then
      .error (.wrongUserVersion user_version stored.user_version)
    else
      .ok { fileLen := len, header := stored, start_offset := stored.start_offset,
            end_offset := stored.end_offset, flushed := false }

/-- States reachable from a fresh `EventFile` by successful `append`s. -/
inductive Reach (cth bel : Nat) : EventFile → Prop where
  | base : Reach cth bel (EventFile.new cth bel)
  | step {ef ef' : EventFile} {e : List Nat} :
      Reach cth bel ef → ef.append e = .ok ef' → Reach cth bel ef'

/-- The decompressed payload of the crafted leaf used against C4: a jump
table `[0, 1]` followed by the single event byte `42`; the leaf covers
event index 1 only (`start_idx = 1`, `count = 1`), as after the prefix in
front of it has been forgotten. -/
def payloadC4 : List Nat := be32 0 ++ be32 1 ++ [42]

/-- A well-formed `EventFile` whose only leaf starts at event index 1:
the stream layout a prefix-forgetting log produces, which `RangeIter::new`
accepts but whose leaf has `start_idx` above a requested start of 0. -/
def efC4 : EventFile :=
  { compression_threshold := 20
    block_event_limit := 4
    stream := [(0, Block.leaf U64MAX 37 1 1 payloadC4)]
    end_offset := 64
    stagingLen := 68
    last_block := 0
    start_idx := 2
    count := 0
    capacity := 4
    buf := [] }

/-- A stream whose newest block is a branch with `prev_block = 8` but
`prev_offset = 16`, the two links deliberately different. -/
def streamC5 : List (Nat × Block) :=
  [(0, Block.branch 8 1 280 16 40 [(8, 0)]),
   (8, Block.leaf U64MAX 30 0 1 []),
   (16, Block.leaf U64MAX 30 0 1 [])]

/-- An event of exactly `2^32` bytes: its length cast to `u32` is `0`. -/
def bigEventB : List Nat := List.replicate (2 ^ 32) 0

/-- The state after one successful `append` on a fresh file, used to
witness the monotone-growth theorem. -/
def efC8 : EventFile :=
  match (EventFile.new 1000 3).append [5] with
  | .ok st => st
  | .error _ => EventFile.new 1000 3

/-!
## Helper lemmas about the byte-buffer primitives
-/

/-- Reading a defaulted element out of a mapped range. -/
theorem getD_range_map (n : Nat) (f : Nat → Nat) (i d : Nat) :
    ((List.range n).map f).getD i d = if i < n then f i else d := by
  rcases Nat.lt_or_ge i n with h | h
  · rw [if_pos h, List.getD_eq_getElem?_getD, List.getElem?_map, List.getElem?_range h]
    rfl
  · rw [if_neg (Nat.not_lt.mpr h)]
    apply List.getD_eq_default
    simpa using h

/-- A byte write is a pointwise overlay: positions inside the written
window read the new bytes, all others read the old buffer. -/
theorem writeBytes_getD (l : List Nat) (p : Nat) (w : List Nat) (i : Nat) :
    (writeBytes l p w).getD i 0 =
      if p ≤ i ∧ i < p + w.length then w.getD (i - p) 0 else l.getD i 0 := by
  unfold writeBytes
  rw [getD_range_map]
  split
  · rfl
  · rename_i hge
    rw [Nat.not_lt, Nat.max_le] at hge
    rw [if_neg, List.getD_eq_default _ _ hge.1]
    rintro ⟨h1, h2⟩
    exact absurd h2 (Nat.not_lt.mpr hge.2)

/-- A zero-extended slice has the requested length. -/
theorem sliceZ_length (l : List Nat) (a b : Nat) : (sliceZ l a b).length = b - a := by
  simp [sliceZ]

/-- Reading back a just-written big-endian `u32` slot returns its value. -/
theorem readBE32_writeBytes_be32 (l : List Nat) (p v : Nat) (hv : v < 2 ^ 32) :
    readBE32 (writeBytes l p (be32 v)) p = v := by
  have hlen : (be32 v).length = 4 := by simp [be32]
  unfold readBE32
  rw [writeBytes_getD, writeBytes_getD, writeBytes_getD, writeBytes_getD, hlen]
  rw [if_pos (by omega), if_pos (by omega), if_pos (by omega), if_pos (by omega)]
  have h0 : p - p = 0 := by omega
  have h1 : p + 1 - p = 1 := by omega
  have h2 : p + 2 - p = 2 := by omega
  have h3 : p + 3 - p = 3 := by omega
  rw [h0, h1, h2, h3]
  show (((v / 2 ^ 24 % 256) * 256 + v / 2 ^ 16 % 256) * 256 + v / 2 ^ 8 % 256) * 256 + v % 256 = v
  omega

/-- The 8-byte rounding of `stream_append_bytes` always lands on a multiple
of eight. -/
theorem round8_mod8 (n : Nat) : round8 n % 8 = 0 := by
  have h8 : (8 : Nat) = 2 ^ 3 := by norm_num
  have hm : ((18446744073709551608 : Nat) &&& 7) = 0 := by decide
  unfold round8
  rw [h8, ← Nat.and_pow_two_sub_one_eq_mod, Nat.and_assoc]
  norm_num [hm]

/-!
## C1, C2: round-trip and range equivalence
-/

/-- C4: the spec says the leaf slice start should be clamped to 0 when
`start_idx_req < leaf.start_idx` and that `next` never panics in the
`u64`→`u32` conversions of `LeafSlice::new`.  The code instead computes the
underflowing `self.start_idx - leaf.start_idx()`: on a stream whose only
leaf covers index 1 (`efC4`), requesting `iter(0..=1)` makes `next`
evaluate `0 - 1` on `u64` and `LeafSlice::new`'s
`start_idx.try_into().unwrap()` panics (modelled as `NextRes.panicked`). -/
theorem C4_next_panics_instead_of_clamping :
    (efC4.iter 0 1).toOption.map (fun st => (RangeIter.next efC4 st 4).1) =
      some NextRes.panicked ∧
    lookupBlock 0 efC4.stream = some (Block.leaf U64MAX 37 1 1 payloadC4) := by decide

/-!
## C5: the search iterator follows `prev_offset` on branches
-/

/-- C5: the claim says every successor offset comes from the yielded
block's `prev_block` field, for blocks of every level.  False for
branches: on `streamC5`, whose block at offset 0 is a branch with
`prev_block = 8` and `prev_offset = 16`, `SearchIter::next` continues at
16, not 8. -/
theorem C5_counterexample :
    SearchIter.next streamC5 100 0 =
      (some (.ok (0, Block.branch 8 1 280 16 40 [(8, 0)])), 16) ∧ (16 : Nat) ≠ 8 := by
  decide

/-- C5 (amended): for every starting offset, the search iterator yields
`(offset, header)` pairs in which each successive offset is obtained from
the previously yielded block's `prev_block` field for level-0 blocks and
from its `BranchHeader.prev_offset` field for branch blocks
(`Block.nextLink`), and iteration ends when that link is `u64::MAX`. -/
theorem C5_amended_links (stream : List (Nat × Block)) (eo off : Nat) (b : Block)
    (hoff : off ≠ U64MAX) (hb : lookupBlock off stream = some b) :
    SearchIter.next stream eo off = (some (.ok (off, b)), Block.nextLink b) ∧
    SearchIter.next stream eo U64MAX = (none, U64MAX) := by
  constructor
  · unfold SearchIter.next streamAt
    rw [if_neg hoff, hb]
  · unfold SearchIter.next
    rw [if_pos rfl]

/-- Witness for the amended C5 at a concrete leaf block. -/
theorem C5_amended_witness :
    SearchIter.next streamC5 100 8 = (some (.ok (8, Block.leaf U64MAX 30 0 1 [])), U64MAX) ∧
    SearchIter.next streamC5 100 U64MAX = (none, U64MAX) := by
  have h := C5_amended_links streamC5 100 8 (Block.leaf U64MAX 30 0 1 [])
    (by decide) (by decide)
  simpa using h

/-!
## C6: `MmapFile::new` on short files
-/

/-- C6: the claim says any existing file shorter than 4096 bytes (including
non-empty ones) is extended and initialized successfully.  False: a file of
length 100 is rejected with `DataCorruption: non-empty file is too small`
(mmap.rs lines 35-44). -/
theorem C6_counterexample :
    MmapFile.new 100 ⟨1, 7, 0, 0⟩ 7 =
      .error (.dataCorruption "non-empty file is too small" 100 4096) ∧
    ∀ m : MmapFileM, MmapFile.new 100 ⟨1, 7, 0, 0⟩ 7 ≠ .ok m := by
  refine ⟨by decide, ?_⟩
  intro m h
  rw [show MmapFile.new 100 ⟨1, 7, 0, 0⟩ 7 =
      .error (.dataCorruption "non-empty file is too small" 100 4096) from by decide] at h
  exact absurd h (by simp)

/-- C6 (amended): only an *empty* file is extended to 4096 bytes, given a
fresh `MmapFileHeader(stream_version=1, user_version, start_offset=0,
end_offset=0)` and flushed; a non-empty file shorter than 4096 bytes fails
with `DataCorruption`. -/
theorem C6_amended_new (uv : Nat) (stored : MmapFileHeaderM) :
    MmapFile.new 0 stored uv =
      .ok { fileLen := 4096, header := ⟨1, uv, 0, 0⟩, start_offset := 0,
            end_offset := 0, flushed := true } ∧
    ∀ len, 0 < len → len < 4096 →
      MmapFile.new len stored uv =
        .error (.dataCorruption "non-empty file is too small" len 4096) := by
  constructor
  · unfold MmapFile.new
    rw [if_pos (by norm_num), if_neg (by norm_num)]
  · intro len h1 h2
    unfold MmapFile.new
    rw [if_pos h2, if_pos h1]

/-- Witness for the amended C6 at concrete lengths 0 and 100. -/
theorem C6_amended_witness :
    MmapFile.new 0 ⟨9, 9, 3, 4⟩ 7 = .ok ⟨4096, ⟨1, 7, 0, 0⟩, 0, 0, true⟩ ∧
    MmapFile.new 100 ⟨9, 9, 3, 4⟩ 7 =
      .error (.dataCorruption "non-empty file is too small" 100 4096) :=
  ⟨(C6_amended_new 7 ⟨9, 9, 3, 4⟩).1,
   (C6_amended_new 7 ⟨9, 9, 3, 4⟩).2 100 (by decide) (by decide)⟩

/-!
## C3: the branch cascade's IndexEntry fields
-/

/-- The cascade leaves the staging header and all leaf blocks untouched and
grows `end_offset` monotonically by 8-aligned amounts. -/
theorem cascade_shape (fuel : Nat) :
    ∀ ef cur lvl ef2 cur2, cascade fuel ef cur lvl = .ok (ef2, cur2) →
      ef2.compression_threshold = ef.compression_threshold ∧
      ef2.block_event_limit = ef.block_event_limit ∧
      ef2.count = ef.count ∧
      ef2.capacity = ef.capacity ∧
      ef.end_offset ≤ ef2.end_offset ∧
      (ef.end_offset % 8 = 0 → ef2.end_offset % 8 = 0) ∧
      (∀ o pb len lo cnt pay, (o, Block.leaf pb len lo cnt pay) ∈ ef2.stream →
        (o, Block.leaf pb len lo cnt pay) ∈ ef.stream) := by
  induction fuel with
  | zero =>
    intro ef cur lvl ef2 cur2 h
    simp [cascade] at h
  | succ f ih =>
    intro ef cur lvl ef2 cur2 h
    simp only [cascade] at h
    rcases hcol : cascadeCollect ef.stream ef.end_offset (ef.stream.length + 2) cur lvl 0 []
      with e | ⟨acc, pidx, eidx⟩ <;> rw [hcol] at h
    · exact absurd h (by simp)
    · dsimp only at h
      by_cases hfan : acc.length < 16
      · rw [if_pos hfan] at h
        cases h
        exact ⟨rfl, rfl, rfl, rfl, Nat.le_refl _, fun a => a, fun o pb len lo cnt pay hm => hm⟩
      · rw [if_neg hfan] at h
        by_cases hlen : 2 ^ 32 - 1 < leafHeaderLEN + indexEntryLEN * acc.length
        · rw [if_pos hlen] at h
          cases h
        · rw [if_neg hlen] at h
          obtain ⟨hcth, hbel, hcnt, hcap, hle, hal, hlv⟩ := ih _ _ _ _ _ h
          refine ⟨hcth, hbel, hcnt, hcap, ?_, ?_, ?_⟩
          · refine Nat.le_trans ?_ hle
            show ef.end_offset ≤ ef.end_offset + 24 + 24 + round8 (indexEntryLEN * acc.length)
            omega
          · intro ha
            refine hal ?_
            show (ef.end_offset + 24 + 24 + round8 (indexEntryLEN * acc.length)) % 8 = 0
            have := round8_mod8 (indexEntryLEN * acc.length)
            omega
          · intro o pb len lo cnt pay hm
            have := hlv o pb len lo cnt pay hm
            rcases List.mem_cons.mp this with h1 | h2
            · cases h1
            · exact h2

/-- `compress` resets the staging count, writes exactly one leaf (with the
snapshot's `count`), and grows `end_offset` by 8-aligned amounts. -/
theorem compress_shape (ef ef' : EventFile) (hc : ef.compress = .ok ef') :
    ef'.compression_threshold = ef.compression_threshold ∧
    ef'.block_event_limit = ef.block_event_limit ∧
    ef'.count = 0 ∧
    ef'.capacity = ef.block_event_limit ∧
    ef.end_offset ≤ ef'.end_offset ∧
    (ef.end_offset % 8 = 0 → ef'.end_offset % 8 = 0) ∧
    (∀ o pb len lo cnt pay, (o, Block.leaf pb len lo cnt pay) ∈ ef'.stream →
      (o, Block.leaf pb len lo cnt pay) ∈ ef.stream ∨ cnt = ef.count) := by
  simp only [EventFile.compress] at hc
  split at hc
  · exact absurd hc (by simp)
  split at hc
  · exact absurd hc (by simp)
  split at hc
  · exact absurd hc (by simp)
  split at hc
  · exact absurd hc (by simp)
  split at hc
  · exact absurd hc (by simp)
  · rename_i ef2 cur2 hcas
    cases hc
    obtain ⟨hcth, hbel, hcnt, hcap, hle, hal, hlv⟩ := cascade_shape _ _ _ _ _ _ hcas
    refine ⟨hcth, hbel, rfl, hbel, ?_, ?_, ?_⟩
    · refine Nat.le_trans ?_ hle
      show ef.end_offset ≤ ef.end_offset + 24 + 24 +
        round8 (sliceZ ef.buf 0 (4 * ef.count + 4) ++
          sliceZ ef.buf (4 * ef.block_event_limit)
            (4 * ef.block_event_limit + readBE32 ef.buf (4 * ef.count))).length
      omega
    · intro ha
      refine hal ?_
      show (ef.end_offset + 24 + 24 +
        round8 (sliceZ ef.buf 0 (4 * ef.count + 4) ++
          sliceZ ef.buf (4 * ef.block_event_limit)
            (4 * ef.block_event_limit + readBE32 ef.buf (4 * ef.count))).length) % 8 = 0
      have := round8_mod8 (sliceZ ef.buf 0 (4 * ef.count + 4) ++
          sliceZ ef.buf (4 * ef.block_event_limit)
            (4 * ef.block_event_limit + readBE32 ef.buf (4 * ef.count))).length
      omega
    · intro o pb len lo cnt pay hm
      have := hlv o pb len lo cnt pay hm
      rcases List.mem_cons.mp this with h1 | h2
      · right
        cases h1
        rfl
      · exact Or.inl h2

/-- A successful `append` either merely bumps `count` (when no compression
triggers, which requires `count + 2 < capacity`) or ends in a compressed
state with `count = 0`; either way the parameters are preserved and
`end_offset` grows by 8-aligned amounts. -/
theorem append_shape (ef ef' : EventFile) (e : List Nat) (hc : ef.append e = .ok ef') :
    ef'.compression_threshold = ef.compression_threshold ∧
    ef'.block_event_limit = ef.block_event_limit ∧
    ef.end_offset ≤ ef'.end_offset ∧
    (ef.end_offset % 8 = 0 → ef'.end_offset % 8 = 0) ∧
    ((ef'.count = ef.count + 1 ∧ ef'.capacity = ef.capacity ∧ ef'.stream = ef.stream ∧
        ¬ ef.capacity ≤ ef.count + 2) ∨
      (ef'.count = 0 ∧ ef'.capacity = ef.block_event_limit ∧
        ∀ o pb len lo cnt pay, (o, Block.leaf pb len lo cnt pay) ∈ ef'.stream →
          (o, Block.leaf pb len lo cnt pay) ∈ ef.stream ∨ cnt = ef.count + 1)) := by
  simp only [EventFile.append] at hc
  split at hc
  · exact absurd hc (by simp)
  split at hc
  · exact absurd hc (by simp)
  split at hc
  · exact absurd hc (by simp)
  split at hc
  · rename_i htrig
    obtain ⟨hcth, hbel, hcnt, hcap, hle, hal, hlv⟩ := compress_shape _ _ hc
    exact ⟨hcth, hbel, hle, hal, Or.inr ⟨hcnt, hcap, hlv⟩⟩
  · rename_i htrig
    cases hc
    refine ⟨rfl, rfl, Nat.le_refl _, fun a => a, Or.inl ⟨rfl, rfl, rfl, ?_⟩⟩
    intro hcap
    exact htrig (Or.inl hcap)

/-- The inductive invariant of reachable states: the staging capacity
equals `block_event_limit`, the staging count stays two below it, the end
offset stays 8-aligned, and every leaf block's count is at most the
limit. -/
theorem reach_inv (cth bel : Nat) (hbel : 2 ≤ bel) (ef : EventFile) (h : Reach cth bel ef) :
    ef.compression_threshold = cth ∧ ef.block_event_limit = bel ∧ ef.capacity = bel ∧
    ef.count + 2 ≤ bel ∧ ef.end_offset % 8 = 0 ∧
    ∀ o pb len lo cnt pay, (o, Block.leaf pb len lo cnt pay) ∈ ef.stream → cnt ≤ bel := by
  induction h with
  | base =>
    refine ⟨rfl, rfl, rfl, hbel, rfl, ?_⟩
    intro o pb len lo cnt pay hm
    simp [EventFile.new, EventFile.prep_staging] at hm
  | step hr happ ih =>
    rename_i ef0 ef1 e
    obtain ⟨icth, ibel, icap, icnt, ial, ilv⟩ := ih
    obtain ⟨hcth, hbel2, hle, hal, hcase⟩ := append_shape _ _ _ happ
    rcases hcase with ⟨c1, c2, c3, c4⟩ | ⟨c1, c2, c3⟩
    · refine ⟨by rw [hcth, icth], by rw [hbel2, ibel], by rw [c2, icap], ?_, hal ial, ?_⟩
      · rw [c1]
        rw [icap] at c4
        omega
      · intro o pb len lo cnt pay hm
        rw [c3] at hm
        exact ilv o pb len lo cnt pay hm
    · refine ⟨by rw [hcth, icth], by rw [hbel2, ibel], by rw [c2, ibel], ?_, hal ial, ?_⟩
      · rw [c1]
        omega
      · intro o pb len lo cnt pay hm
        rcases c3 o pb len lo cnt pay hm with hin | hcnt
        · exact ilv o pb len lo cnt pay hin
        · rw [hcnt]
          omega

/-- C7: for every state reachable by appends on an `EventFile` created with
`block_event_limit ≥ 2`, the staging header satisfies `count ≤ capacity`
(with `capacity = block_event_limit` fixed at creation), and every
`LeafHeader` written by `compress` has `count ≤ block_event_limit`. -/
theorem C7_count_within_capacity (cth bel : Nat) (hbel : 2 ≤ bel) (ef : EventFile)
    (h : Reach cth bel ef) :
    ef.count ≤ ef.capacity ∧
    ∀ o pb len lo cnt pay, (o, Block.leaf pb len lo cnt pay) ∈ ef.stream →
      cnt ≤ bel := by
  obtain ⟨_, _, icap, icnt, _, ilv⟩ := reach_inv cth bel hbel ef h
  exact ⟨by omega, ilv⟩

/-- Witness for C7 at the state reached by one append on a fresh file. -/
theorem C7_witness :
    efC8.count ≤ efC8.capacity ∧
    ∀ o pb len lo cnt pay, (o, Block.leaf pb len lo cnt pay) ∈ efC8.stream →
      cnt ≤ 3 :=
  C7_count_within_capacity 1000 3 (by decide) efC8
    (@Reach.step 1000 3 (EventFile.new 1000 3) efC8 [5] Reach.base (by decide))

/-- C8: after every successful `append` (whether or not it compresses),
`end_offset` is no smaller than before and divisible by 8: `stream_append`
advances it by the record's `SIZE` (24 for `BlockHeader`, `LeafHeader` and
`BranchHeader`, each a multiple of 8) and `stream_append_bytes` advances it
by the byte length rounded up to a multiple of 8 (`round8`). -/
theorem C8_monotone_aligned (cth bel : Nat) (ef ef' : EventFile) (e : List Nat)
    (h : Reach cth bel ef) (happ : ef.append e = .ok ef') :
    ef.end_offset ≤ ef'.end_offset ∧ ef'.end_offset % 8 = 0 := by
  have hal : ef.end_offset % 8 = 0 := by
    clear happ
    induction h with
    | base => rfl
    | step hr happ2 ih =>
      obtain ⟨_, _, _, hal2, _⟩ := append_shape _ _ _ happ2
      exact hal2 ih
  obtain ⟨_, _, hle, hal2, _⟩ := append_shape _ _ _ happ
  exact ⟨hle, hal2 hal⟩

/-- Witness for C8: one concrete append on a fresh file. -/
theorem C8_witness :
    (EventFile.new 1000 3).end_offset ≤ efC8.end_offset ∧ efC8.end_offset % 8 = 0 :=
  C8_monotone_aligned 1000 3 (EventFile.new 1000 3) efC8 [5] Reach.base (by decide)

/-!
## C9: at most one error per iterator
-/

/-- Every error-yielding exit of the descent loop sets `done`. -/
theorem loop_err_done (ef : EventFile) (fuel : Nat) :
    ∀ st off e st2, RangeIter.loop ef fuel st off = (.item (.error e), st2) →
      st2.done = true := by
  induction fuel with
  | zero =>
    intro st off e st2 h
    simp [RangeIter.loop] at h
  | succ f ih =>
    intro st off e st2 h
    simp only [RangeIter.loop] at h
    split at h
    · cases h
      rfl
    · split at h
      · simp at h
      · simp at h
    · split at h
      · split at h
        · simp at h
        · exact ih _ _ _ _ h
      · split at h
        · cases h
          rfl
        · split at h
          · cases h
            rfl
          · exact ih _ _ _ _ h

/-- C9: once a call to `next()` returns an `Err` item, every subsequent
call returns `None`, for `SearchIter` (which parks its offset at
`u64::MAX`) and for `RangeIter` (which sets `done`) alike; each iterator
hence yields at most one error over its lifetime. -/
theorem C9_at_most_one_error :
    (∀ stream eo off e rest, SearchIter.next stream eo off = (some (.error e), rest) →
      rest = U64MAX ∧ SearchIter.next stream eo rest = (none, rest)) ∧
    (∀ ef st fuel e st2, RangeIter.next ef st fuel = (.item (.error e), st2) →
      st2.done = true ∧ ∀ fuel2, RangeIter.next ef st2 fuel2 = (.stop, st2)) := by
  constructor
  · intro stream eo off e rest h
    unfold SearchIter.next at h
    split at h
    · simp at h
    · split at h
      · cases h
        exact ⟨rfl, by unfold SearchIter.next; rw [if_pos rfl]⟩
      · simp at h
  · intro ef st fuel e st2 h
    have hdone : st2.done = true := by
      unfold RangeIter.next at h
      split at h
      · simp at h
      · split at h
        · dsimp only at h
          repeat' split at h
          all_goals first | (cases h; rfl) | simp at h
        · exact loop_err_done ef fuel st _ e st2 h
    refine ⟨hdone, ?_⟩
    intro fuel2
    unfold RangeIter.next
    rw [if_pos hdone]

/-- Witness for C9: a search step and a range step that hit a missing
block yield one error and then `None` forever. -/
theorem C9_witness :
    (U64MAX = U64MAX ∧ SearchIter.next [] 0 U64MAX = (none, U64MAX)) ∧
    ((⟨true, 0, 0, [5]⟩ : RangeIter).done = true ∧
      ∀ f2, RangeIter.next (EventFile.new 0 0) ⟨true, 0, 0, [5]⟩ f2 =
        (.stop, ⟨true, 0, 0, [5]⟩)) :=
  ⟨C9_at_most_one_error.1 [] 0 5 (.dataNotPresent "stream_at" 5 0) U64MAX (by decide),
   C9_at_most_one_error.2 (EventFile.new 0 0) ⟨false, 0, 0, [5]⟩ 3
     (.dataNotPresent "stream_at" 5 0) ⟨true, 0, 0, [5]⟩ (by decide)⟩

/-!
## The wrapping jump-table slot in append

`append` stores `offset + event.len() as u32` into the next jump slot; the
`u32` sum wraps with no overflow check.  The lemmas below record the
codec-independent part of that behaviour: the slot value is the sum modulo
`2^32`, and an append that does not trigger compression returns `Ok` with
the wrapped slot in place.  Whether an append that does trigger compression
succeeds additionally depends on the external zstd encoder's output length
(the `u32` length check in `compress`), which the identity codec model does
not decide.
-/

/-- Reading the zero-filled fresh staging area yields 0. -/
theorem readBE32_nil (i : Nat) : readBE32 [] i = 0 := by
  simp [readBE32]

/-- Symbolic one-step unfolding of `EventFile.append` past its bounds
checks, with the jump-slot value and event length abstracted. -/
theorem append_spec (cth bel eo sl lb si c cap : Nat) (stream : List (Nat × Block))
    (bu event : List Nat) (o L : Nat)
    (ho : readBE32 bu (4 * c) = o)
    (hL : event.length = L)
    (h0 : ¬ sl < stagingHeaderLEN)
    (h1 : ¬ sl < stagingIdx c + 4)
    (h2 : ¬ max sl (stagingIdx bel + o + L) < stagingIdx c + 8) :
    EventFile.append ⟨cth, bel, stream, eo, sl, lb, si, c, cap, bu⟩ event =
      (if cap ≤ c + 2 ∨ cth ≤ (o + L) % 2 ^ 32 then
        EventFile.compress ⟨cth, bel, stream, eo, max sl (stagingIdx bel + o + L), lb, si,
          c + 1, cap, writeBytes (writeBytes bu (4 * bel + o) event) (4 * c + 4)
            (be32 ((o + L) % 2 ^ 32))⟩
       else
        .ok ⟨cth, bel, stream, eo, max sl (stagingIdx bel + o + L), lb, si,
          c + 1, cap, writeBytes (writeBytes bu (4 * bel + o) event) (4 * c + 4)
            (be32 ((o + L) % 2 ^ 32))⟩) := by
  unfold EventFile.append
  simp only [ho, hL]
  rw [if_neg h0, if_neg h1, if_neg h2]

/-- Length of the `2^32`-byte event. -/
theorem bigB_length : bigEventB.length = 2 ^ 32 := List.length_replicate _ _

/-- `append` records in jump slot `count + 1` the value
`(jump[count] + event length) mod 2^32` with no overflow check, so the
stored offset differs from the true cumulative byte count whenever that
sum reaches `2^32`; when the append does not trigger compression it
returns `Ok` with the wrapped slot stored.  (The codec plays no part: the
compress path is not entered.) -/
theorem append_slot_wraps (cth bel eo sl lb si c cap : Nat) (stream : List (Nat × Block))
    (bu event : List Nat) (o L : Nat)
    (ho : readBE32 bu (4 * c) = o)
    (hL : event.length = L)
    (h0 : ¬ sl < stagingHeaderLEN)
    (h1 : ¬ sl < stagingIdx c + 4)
    (h2 : ¬ max sl (stagingIdx bel + o + L) < stagingIdx c + 8)
    (hwrap : 2 ^ 32 ≤ o + L)
    (hcap : ¬ cap ≤ c + 2)
    (hth : (o + L) % 2 ^ 32 < cth) :
    EventFile.append ⟨cth, bel, stream, eo, sl, lb, si, c, cap, bu⟩ event =
      .ok ⟨cth, bel, stream, eo, max sl (stagingIdx bel + o + L), lb, si,
        c + 1, cap, writeBytes (writeBytes bu (4 * bel + o) event) (4 * c + 4)
          (be32 ((o + L) % 2 ^ 32))⟩ ∧
    readBE32 (writeBytes (writeBytes bu (4 * bel + o) event) (4 * c + 4)
      (be32 ((o + L) % 2 ^ 32))) (4 * c + 4) = (o + L) % 2 ^ 32 ∧
    (o + L) % 2 ^ 32 ≠ o + L := by
  refine ⟨?_, readBE32_writeBytes_be32 _ _ _ (Nat.mod_lt _ (by norm_num)), ?_⟩
  · rw [append_spec cth bel eo sl lb si c cap stream bu event o L ho hL h0 h1 h2]
    rw [if_neg]
    exact fun h => h.elim hcap (fun hx => absurd hx (Nat.not_le.mpr hth))
  · have hlt : (o + L) % 2 ^ 32 < 2 ^ 32 := Nat.mod_lt _ (by norm_num)
    omega

/-- Concrete instance: on a fresh-file staging state
(`compression_threshold = 2^33`, `block_event_limit = 4`), appending a
`2^32`-byte event succeeds and stores slot value `0`. -/
theorem append_slot_wraps_example :
    (⟨2 ^ 33, 4, [], 0, 48 + 2 ^ 33, U64MAX, 0, 0, 4, []⟩ : EventFile).append bigEventB =
      .ok ⟨2 ^ 33, 4, [], 0, max (48 + 2 ^ 33) (stagingIdx 4 + 0 + 2 ^ 32), U64MAX, 0,
        0 + 1, 4, writeBytes (writeBytes [] (4 * 4 + 0) bigEventB) (4 * 0 + 4)
          (be32 ((0 + 2 ^ 32) % 2 ^ 32))⟩ ∧
    readBE32 (writeBytes (writeBytes [] (4 * 4 + 0) bigEventB) (4 * 0 + 4)
      (be32 ((0 + 2 ^ 32) % 2 ^ 32))) (4 * 0 + 4) = (0 + 2 ^ 32) % 2 ^ 32 ∧
    (0 + 2 ^ 32) % 2 ^ 32 ≠ 0 + 2 ^ 32 :=
  append_slot_wraps (2 ^ 33) 4 0 (48 + 2 ^ 33) U64MAX 0 0 4 [] [] bigEventB 0 (2 ^ 32)
    (readBE32_nil _) bigB_length
    (by norm_num [stagingHeaderLEN])
    (by norm_num [stagingIdx, stagingHeaderLEN])
    (by
      rw [Nat.max_eq_left (by norm_num [stagingIdx, stagingHeaderLEN])]
      norm_num [stagingIdx, stagingHeaderLEN])
    (by norm_num) (by norm_num) (by norm_num)
